import Mathlib

/-!
Shallow embedding of the core pipeline of the `Iot-Meeting-Transcriber`
repository (`recorder.py`, `transcript_aggregator.py`, `stt_engine.py`),
with theorems settling the frozen claims about it.

Modelling conventions:
* Python `datetime` instants are modelled as whole seconds (integers);
  the source works with float seconds, but no claim settled here depends on
  sub-second granularity, only on ordering, differences and truncation to
  `HH:MM:SS`.  The human-readable `strftime` rendering of the session start
  is carried as an opaque string field, since no claim constrains its exact
  characters.
* The filesystem is a map from path to file content; `open(path, 'w')`
  followed by writes is one `fsWrite`, `os.remove` is `fsRemove`,
  `os.path.exists` is `fsExists`.
* Python `str.strip()` is `pyStrip` (trim surrounding whitespace).
* The word dictionaries attached to segments are opaque payloads, modelled
  as strings: no claim looks inside them.
-/

/-- ASCII whitespace as recognized by Python `str.strip()` (the further
Unicode space characters Python would also strip play no role here). -/
def pyIsSpace (c : Char) : Bool :=
  c == ' ' || c == '\t' || c == '\n' || c == '\r' || c == '\x0b' || c == '\x0c'

/-- Python `str.strip()`: remove leading and trailing whitespace. -/
def pyStrip (s : String) : String :=
  String.mk (((s.data.dropWhile pyIsSpace).reverse.dropWhile pyIsSpace).reverse)

/-- Python `f"{n:02d}"`: zero-pad to width two (sign included in the width). -/
def pad2 (n : Int) : String :=
  if (toString n).length < 2 then "0" ++ toString n else toString n

/-- `TranscriptAggregator._format_timestamp`: split a duration in seconds into
`HH:MM:SS`.  Python's `//` and `%` on a float with a positive divisor are
floor division and nonnegative remainder, i.e. `Int.ediv` and `Int.emod` on
whole seconds; the outer `int(...)` truncations are the identity there. -/
def formatTimestamp (seconds : Int) : String :=
  let hours : Int := Int.ediv seconds 3600
  let minutes : Int := Int.ediv (Int.emod seconds 3600) 60
  let secs : Int := Int.emod seconds 60
  pad2 hours ++ ":" ++ pad2 minutes ++ ":" ++ pad2 secs

/-- One transcript segment, as built by `TranscriptAggregator.add_segment`
(the dict with keys `timestamp`, `elapsed_seconds`, `text`, `words`). -/
structure Segment where
  timestamp : String
  elapsed_seconds : Int
  text : String
  words : List String
deriving DecidableEq, Repr

/-- The mutable state of one `TranscriptAggregator` instance. -/
structure AggState where
  session_name : String
  start_time : Int
  start_time_str : String
  segments : List Segment
  transcript_file : String
  last_save_time : Int
  save_interval : Int
deriving DecidableEq, Repr

/-- The filesystem, restricted to what the aggregator touches: a map from
path to the content of the file at that path. -/
def FS : Type := String → Option String

/-- Writing a whole file (`open(path, 'w')` followed by the writes). -/
def fsWrite (fs : FS) (path content : String) : FS :=
  fun q => if q = path then some content else fs q

/-- Reading a file's content back. -/
def fsRead (fs : FS) (path : String) : Option String := fs path

/-- Python `os.remove(path)`. -/
def fsRemove (fs : FS) (path : String) : FS :=
  fun q => if q = path then none else fs q

/-- Python `os.path.exists(path)`. -/
def fsExists (fs : FS) (path : String) : Bool := (fs path).isSome

/-- The empty filesystem. -/
def fsEmpty : FS := fun _ => none

/-- `TranscriptAggregator.__init__`: empty segment list, transcript path
`session_folder/session_name.txt`, 30-second save interval, and both clocks
set to the construction instant. -/
def initAgg (session_folder session_name : String) (now : Int)
    (nowStr : String) : AggState :=
  { session_name := session_name
    start_time := now
    start_time_str := nowStr
    segments := []
    transcript_file := session_folder ++ "/" ++ session_name ++ ".txt"
    last_save_time := now
    save_interval := 30 }

/-- The path of the sidecar file written by the periodic save:
`self.transcript_file + '.partial'`. -/
def sidecarPath (st : AggState) : String := st.transcript_file ++ ".partial"

/-- The body line written for one segment: `f"[{timestamp}] {text}\n"`. -/
def segLine (s : Segment) : String :=
  "[" ++ s.timestamp ++ "] " ++ s.text ++ "\n"

/-- Sixty equals signs, `"=" * 60`. -/
def sixtyEq : String := String.mk (List.replicate 60 '=')

/-- The header chunk of `_write_transcript`: session name line, start-time
line, separator, blank line. -/
def headerStr (st : AggState) : String :=
  "Transcript: " ++ st.session_name ++ "\n" ++
  "Started: " ++ st.start_time_str ++ "\n" ++
  sixtyEq ++ "\n\n"

/-- The body of `_write_transcript`: the `for segment in self.segments`
loop, one `segLine` written per segment, in list order. -/
def bodyStr : List Segment → String
  | [] => ""
  | s :: rest => segLine s ++ bodyStr rest

/-- The footer chunk of `_write_transcript`: separator, segment count, and
(only when the segment list is non-empty) the duration of the last segment. -/
def footerStr (st : AggState) : String :=
  "\n" ++ sixtyEq ++ "\n" ++
  "Total segments: " ++ toString st.segments.length ++ "\n" ++
  (match st.segments.getLast? with
   | some s => "Duration: " ++ formatTimestamp s.elapsed_seconds ++ "\n"
   | none => "")

/-- `TranscriptAggregator._write_transcript`: the full content written to the
given file — header, one line per segment, footer. -/
def renderTranscript (st : AggState) : String :=
  headerStr st ++ bodyStr st.segments ++ footerStr st

/-- `TranscriptAggregator._save_partial`: write the rendered transcript to the
sidecar path and record the save instant.  (The `try/except` around the write
only matters when the write itself fails, which is not injected here.) -/
def saveSidecar (st : AggState) (fs : FS) (now : Int) : AggState × FS :=
  ({ st with last_save_time := now },
   fsWrite fs (sidecarPath st) (renderTranscript st))

/-- The segment dict appended by `add_segment` for non-blank text. -/
def mkSegment (start now : Int) (text : String)
    (words : Option (List String)) : Segment :=
  { timestamp := formatTimestamp (now - start)
    elapsed_seconds := now - start
    text := pyStrip text
    words := words.getD [] }

/-- `TranscriptAggregator.add_segment`: drop blank text, otherwise append a
timestamped segment and, when at least `save_interval` has passed since the
last save, write the sidecar snapshot.  The three `datetime.now()` calls of
one invocation are modelled as the single instant `now`. -/
def addSegment (st : AggState) (fs : FS) (now : Int) (text : String)
    (words : Option (List String)) : AggState × FS :=
  if text = "" ∨ pyStrip text = "" then (st, fs)
  else
    let seg := mkSegment st.start_time now text words
    let st1 : AggState := { st with segments := st.segments ++ [seg] }
    if st1.save_interval ≤ now - st1.last_save_time then
      saveSidecar st1 fs now
    else (st1, fs)

/-- `TranscriptAggregator.save_transcript`: write the canonical transcript,
then try to delete the sidecar if it exists — any exception from the deletion
(injected through `removeRaises`) is swallowed — and return the transcript
path. -/
def saveTranscript (st : AggState) (fs : FS) (removeRaises : Bool) :
    (AggState × FS) × String :=
  let fs1 := fsWrite fs st.transcript_file (renderTranscript st)
  let fs2 :=
    if fsExists fs1 (sidecarPath st) then
      if removeRaises then fs1 else fsRemove fs1 (sidecarPath st)
    else fs1
  ((st, fs2), st.transcript_file)

/-- `TranscriptAggregator.get_full_transcript`: `' '.join(segment texts)`. -/
def getFullTranscript (st : AggState) : String :=
  String.intercalate " " (st.segments.map (fun s => s.text))

/-- `TranscriptAggregator.get_segment_count`. -/
def getSegmentCount (st : AggState) : Nat := st.segments.length

/-- Feeding a sequence of (instant, final text) events to the aggregator, as
the consumer loop does with each final recognition result. -/
def addMany (st : AggState) (fs : FS) (evs : List (Int × String)) :
    AggState × FS :=
  evs.foldl (fun p e => addSegment p.1 p.2 e.1 e.2 none) (st, fs)

/-- One audio block handed to `AudioRecorder._audio_callback`: the raw
`in_data` bytes plus the driver-reported `frame_count`. -/
structure AudioBlock where
  bytes : List Nat
  frameCount : Nat
deriving DecidableEq, Repr

/-- Total frames in a list of blocks. -/
def framesOf (bs : List AudioBlock) : Nat :=
  (bs.map (fun b => b.frameCount)).sum

/-- The mutable state of one `AudioRecorder` instance, together with the
state of the external resources it owns.  `self.stream`, `self.wav_file` and
`self.audio` are set once in `__init__` and never reset to `None`, so the
truthiness guards in `stop()` always pass; what changes is whether the
underlying resource is still open:
* `streamOpen`: the PyAudio stream has not been closed — operating on a
  closed stream (`stop_stream`/`close` after `close`) raises
  `OSError(paBadStreamPtr, 'Stream not open')`;
* `streamActive`: the stream has been started and not stopped;
* `wavOpen`: the `wave` writer's underlying file is still open — its
  `close()` finalizes the header once and is a no-op afterwards;
* `wavFinalized`: how many times the WAV header/frame count was finalized;
* `audioLive`: `PyAudio.terminate()` has not been called. -/
structure RecState where
  recording : Bool
  audio_queue : List AudioBlock
  wav_blocks : List AudioBlock
  frames_recorded : Nat
  streamOpen : Bool
  streamActive : Bool
  wavOpen : Bool
  wavFinalized : Nat
  audioLive : Bool
deriving DecidableEq, Repr

/-- The recorder state right after `AudioRecorder.__init__`: stream and WAV
file opened, nothing recorded, queue empty, not yet recording. -/
def initRec : RecState :=
  { recording := false
    audio_queue := []
    wav_blocks := []
    frames_recorded := 0
    streamOpen := true
    streamActive := false
    wavOpen := true
    wavFinalized := 0
    audioLive := true }

/-- `AudioRecorder._audio_callback`: while recording, enqueue the block for
the consumer, append the same bytes to the WAV file, and add its frame count
to `frames_recorded`; otherwise do nothing. -/
def audioCallback (st : RecState) (b : AudioBlock) : RecState :=
  if st.recording then
    { st with
      audio_queue := st.audio_queue ++ [b]
      wav_blocks := st.wav_blocks ++ [b]
      frames_recorded := st.frames_recorded + b.frameCount }
  else st

/-- `AudioRecorder.start`: raise the recording flag and start the stream. -/
def startRec (st : RecState) : RecState :=
  { st with recording := true, streamActive := true }

/-- `AudioRecorder.stop`: clear the recording flag, then
`stream.stop_stream(); stream.close()`, `wav_file.close()`,
`audio.terminate()`.  Returns the new state and, when the external stream
raises (it does as soon as `stop_stream` is invoked on a closed stream),
the exception message — state mutated so far is kept, as in Python. -/
def stopRec (st : RecState) : RecState × Option String :=
  let st1 : RecState := { st with recording := false }
  if st1.streamOpen then
    let st2 : RecState := { st1 with streamOpen := false, streamActive := false }
    let st3 : RecState :=
      if st2.wavOpen then
        { st2 with wavOpen := false, wavFinalized := st2.wavFinalized + 1 }
      else st2
    ({ st3 with audioLive := false }, none)
  else
    (st1, some "Stream not open")

/-- `AudioRecorder.get_audio_block`: pop the oldest queued block; when the
queue is empty and no block arrives within the timeout, `queue.Empty` is
caught and `None` is returned. -/
def getAudioBlock (st : RecState) : RecState × Option AudioBlock :=
  match st.audio_queue with
  | [] => (st, none)
  | b :: rest => ({ st with audio_queue := rest }, some b)

/-- The events that touch the recorder state: a driver callback delivering a
block, a consumer `get_audio_block` poll, `start()`, and `stop()`. -/
inductive REvent where
  | cb (b : AudioBlock)
  | get
  | startEv
  | stopEv
deriving DecidableEq, Repr

/-- One event step over the recorder state, accumulating the blocks the
consumer has dequeued so far. -/
def stepRec (p : RecState × List AudioBlock) (e : REvent) :
    RecState × List AudioBlock :=
  match e with
  | .cb b => (audioCallback p.1 b, p.2)
  | .get =>
    let r := getAudioBlock p.1
    (r.1, p.2 ++ r.2.toList)
  | .startEv => (startRec p.1, p.2)
  | .stopEv => ((stopRec p.1).1, p.2)

/-- A whole session trace run from the freshly initialized recorder. -/
def runRec (tr : List REvent) : RecState × List AudioBlock :=
  tr.foldl stepRec (initRec, [])

/-- What the external Vosk recognizer reports for one block:
`AcceptWaveform` returned true and `Result()` carries `text` and `result`
word entries, or `AcceptWaveform` returned false and `PartialResult()`
carries the in-progress hypothesis. -/
inductive VoskResponse where
  | boundary (text : String) (words : List String)
  | inProgress (text : String)
deriving DecidableEq, Repr

/-- The statistics counters kept by `VoskSTTEngine`. -/
structure VoskEngine where
  interim_count : Nat
  final_count : Nat
deriving DecidableEq, Repr

/-- The result dict returned by `VoskSTTEngine.process_audio`. -/
inductive SttResult where
  | finalText (text : String) (words : List String)
  | interimText (text : String)
deriving DecidableEq, Repr

/-- The text field of the recognizer's report for one block. -/
def respText : VoskResponse → String
  | .boundary t _ => t
  | .inProgress t => t

/-- `VoskSTTEngine.process_audio`: `None` for empty input; on an utterance
boundary, a final result only when the stripped text is non-empty; otherwise
an in-progress result only when the stripped hypothesis is non-empty; in
every other case `None`. -/
def processAudio (eng : VoskEngine) (audio_data : List Nat)
    (resp : VoskResponse) : VoskEngine × Option SttResult :=
  if audio_data = [] then (eng, none)
  else
    match resp with
    | .boundary t ws =>
      if ¬ (pyStrip t = "") then
        ({ eng with final_count := eng.final_count + 1 },
         some (.finalText t ws))
      else (eng, none)
    | .inProgress t =>
      if ¬ (pyStrip t = "") then
        ({ eng with interim_count := eng.interim_count + 1 },
         some (.interimText t))
      else (eng, none)

/-! Helper lemmas about strings, the filesystem map and the aggregator. -/

lemma strData_append (a b : String) : (a ++ b).data = a.data ++ b.data := rfl

lemma strJoin_cons (a : String) (l : List String) :
    String.join (a :: l) = a ++ String.join l := by
  apply String.ext
  simp [String.join_eq, strData_append]

lemma fsRead_fsWrite_self (fs : FS) (p c : String) :
    fsRead (fsWrite fs p c) p = some c := by
  simp [fsRead, fsWrite]

lemma fsRead_fsWrite_ne (fs : FS) (p c q : String) (h : q ≠ p) :
    fsRead (fsWrite fs p c) q = fsRead fs q := by
  simp [fsRead, fsWrite, h]

lemma fsRead_fsRemove_ne (fs : FS) (p q : String) (h : q ≠ p) :
    fsRead (fsRemove fs p) q = fsRead fs q := by
  simp [fsRead, fsRemove, h]

lemma transcript_ne_sidecar (st : AggState) :
    st.transcript_file ≠ sidecarPath st := by
  intro h
  have h8 : (".partial" : String).data.length = 8 := rfl
  have h2 := congrArg (fun s : String => s.data.length) h
  simp only [sidecarPath, strData_append, List.length_append, h8] at h2
  omega

lemma bodyStr_append (xs ys : List Segment) :
    bodyStr (xs ++ ys) = bodyStr xs ++ bodyStr ys := by
  induction xs with
  | nil => simp [bodyStr]
  | cons s rest ih => simp [bodyStr, ih, String.append_assoc]

lemma bodyStr_eq_join (l : List Segment) :
    bodyStr l = String.join (l.map segLine) := by
  induction l with
  | nil => rfl
  | cons s rest ih => simp [bodyStr, ih, strJoin_cons]

lemma headerStr_congr (a b : AggState) (h1 : a.session_name = b.session_name)
    (h2 : a.start_time_str = b.start_time_str) : headerStr a = headerStr b := by
  simp [headerStr, h1, h2]

lemma pyStrip_empty : pyStrip "" = "" := rfl

/-- The canonical write of `save_transcript` is readable back regardless of
whether the sidecar removal attempt fails. -/
lemma saveTranscript_read_canonical (st : AggState) (fs : FS) (b : Bool) :
    fsRead (saveTranscript st fs b).1.2 st.transcript_file
      = some (renderTranscript st) := by
  unfold saveTranscript
  dsimp only
  split
  · split
    · exact fsRead_fsWrite_self fs _ _
    · rw [fsRead_fsRemove_ne _ _ _ (transcript_ne_sidecar st)]
      exact fsRead_fsWrite_self fs _ _
  · exact fsRead_fsWrite_self fs _ _

/-- Behaviour of `add_segment` on non-blank text when the save interval has
elapsed: append the segment, write the sidecar snapshot, stamp the save. -/
lemma addSegment_save_eq (st : AggState) (fs : FS) (now : Int) (text : String)
    (words : Option (List String)) (hne : pyStrip text ≠ "")
    (hsave : st.save_interval ≤ now - st.last_save_time) :
    addSegment st fs now text words =
      ({ st with
          segments := st.segments ++ [mkSegment st.start_time now text words]
          last_save_time := now },
       fsWrite fs (sidecarPath st)
         (renderTranscript { st with
            segments := st.segments ++ [mkSegment st.start_time now text words] })) := by
  have htext : ¬ (text = "" ∨ pyStrip text = "") := by
    rintro (rfl | h)
    · exact hne pyStrip_empty
    · exact hne h
  obtain ⟨sn, stt, sts, segs, tf, lst, si⟩ := st
  unfold addSegment
  rw [if_neg htext]
  dsimp only
  split
  · rfl
  · next hlt => exact absurd hsave hlt

/-- `add_segment` never touches the identity fields of the aggregator and can
only append to the segment list. -/
lemma addSegment_keeps (st : AggState) (fs : FS) (now : Int) (text : String)
    (words : Option (List String)) :
    ((addSegment st fs now text words).1).start_time = st.start_time ∧
    ((addSegment st fs now text words).1).session_name = st.session_name ∧
    ((addSegment st fs now text words).1).start_time_str = st.start_time_str ∧
    ((addSegment st fs now text words).1).transcript_file = st.transcript_file ∧
    ((addSegment st fs now text words).1).save_interval = st.save_interval ∧
    ∃ T, ((addSegment st fs now text words).1).segments = st.segments ++ T := by
  unfold addSegment
  dsimp only
  split
  · exact ⟨rfl, rfl, rfl, rfl, rfl, [], by simp⟩
  · split
    · exact ⟨rfl, rfl, rfl, rfl, rfl,
        [mkSegment st.start_time now text words], rfl⟩
    · exact ⟨rfl, rfl, rfl, rfl, rfl,
        [mkSegment st.start_time now text words], rfl⟩

/-- On non-blank text, `add_segment` appends exactly one segment. -/
lemma addSegment_nonblank_segments (st : AggState) (fs : FS) (now : Int)
    (text : String) (words : Option (List String)) (hne : pyStrip text ≠ "") :
    ((addSegment st fs now text words).1).segments
      = st.segments ++ [mkSegment st.start_time now text words] := by
  have htext : ¬ (text = "" ∨ pyStrip text = "") := by
    rintro (rfl | h)
    · exact hne pyStrip_empty
    · exact hne h
  unfold addSegment
  rw [if_neg htext]
  dsimp only
  split
  · rfl
  · rfl

/-- A whole event sequence never touches the identity fields of the
aggregator and only appends to the segment list. -/
lemma addMany_keeps (evs : List (Int × String)) :
    ∀ (st : AggState) (fs : FS),
    ((addMany st fs evs).1).start_time = st.start_time ∧
    ((addMany st fs evs).1).session_name = st.session_name ∧
    ((addMany st fs evs).1).start_time_str = st.start_time_str ∧
    ((addMany st fs evs).1).transcript_file = st.transcript_file ∧
    ∃ T, ((addMany st fs evs).1).segments = st.segments ++ T := by
  induction evs with
  | nil => exact fun st fs => ⟨rfl, rfl, rfl, rfl, [], by simp [addMany]⟩
  | cons e evs ih =>
    intro st fs
    have hstep := addSegment_keeps st fs e.1 e.2 none
    obtain ⟨k1, k2, k3, k4, _k5, T1, hT1⟩ := hstep
    have hrec := ih (addSegment st fs e.1 e.2 none).1 (addSegment st fs e.1 e.2 none).2
    obtain ⟨r1, r2, r3, r4, T2, hT2⟩ := hrec
    have hun : addMany st fs (e :: evs)
        = addMany (addSegment st fs e.1 e.2 none).1
            (addSegment st fs e.1 e.2 none).2 evs := by
      simp [addMany, List.foldl_cons]
    rw [hun]
    refine ⟨by rw [r1, k1], by rw [r2, k2], by rw [r3, k3], by rw [r4, k4],
      T1 ++ T2, ?_⟩
    rw [hT2, hT1, List.append_assoc]

/-- When every event text is non-blank, the whole sequence appends exactly one
segment per event, in order. -/
lemma addMany_all_segments (evs : List (Int × String)) :
    ∀ (st : AggState) (fs : FS), (∀ e ∈ evs, pyStrip e.2 ≠ "") →
    ((addMany st fs evs).1).segments
      = st.segments ++ evs.map (fun e => mkSegment st.start_time e.1 e.2 none) := by
  induction evs with
  | nil => intro st fs _; simp [addMany]
  | cons e evs ih =>
    intro st fs h
    have hun : addMany st fs (e :: evs)
        = addMany (addSegment st fs e.1 e.2 none).1
            (addSegment st fs e.1 e.2 none).2 evs := by
      simp [addMany, List.foldl_cons]
    rw [hun]
    have hrec := ih (addSegment st fs e.1 e.2 none).1
      (addSegment st fs e.1 e.2 none).2 (fun x hx => h x (List.mem_cons_of_mem e hx))
    rw [hrec, addSegment_nonblank_segments st fs e.1 e.2 none
      (h e (List.mem_cons_self e evs)),
      (addSegment_keeps st fs e.1 e.2 none).1]
    simp [List.append_assoc]

/-! Claim theorems for the transcript aggregator. -/

/-- C6: calling `add_segment` with an empty or whitespace-only string is a
no-op — the segment list, the segment count and all other aggregator state,
as well as the filesystem, are exactly unchanged. -/
theorem addSegment_blank_noop (st : AggState) (fs : FS) (now : Int)
    (text : String) (words : Option (List String)) (h : pyStrip text = "") :
    addSegment st fs now text words = (st, fs) := by
  unfold addSegment
  rw [if_pos (Or.inr h)]

/-- Witness for `addSegment_blank_noop` at the whitespace-only text
`"   "` (which also covers `""` through `pyStrip`). -/
theorem addSegment_blank_noop_witness :
    pyStrip "   " = "" ∧
    addSegment (initAgg "rec" "sess" 0 "T") fsEmpty 5 "   " none
      = (initAgg "rec" "sess" 0 "T", fsEmpty) :=
  ⟨by decide, addSegment_blank_noop (initAgg "rec" "sess" 0 "T") fsEmpty 5
    "   " none (by decide)⟩

/-- C10: `save_transcript` is total even when deleting the `.partial`
sidecar fails (`removeRaises = true` injects the exception, which the
`try/except: pass` swallows): it still returns the transcript path, the
canonical transcript has been written and is readable back, and the
aggregator state is untouched. -/
theorem saveTranscript_total_despite_remove_failure (st : AggState) (fs : FS)
    (removeRaises : Bool) :
    (saveTranscript st fs removeRaises).2 = st.transcript_file ∧
    fsRead (saveTranscript st fs removeRaises).1.2 st.transcript_file
      = some (renderTranscript st) ∧
    (saveTranscript st fs removeRaises).1.1 = st :=
  ⟨rfl, saveTranscript_read_canonical st fs removeRaises, rfl⟩

/-- C5: `save_transcript` writes the canonical transcript file — header,
exactly one `[HH:MM:SS] text` line per segment in append order, footer with
the segment count and the last segment's duration — deletes the `.partial`
sidecar, and returns the transcript path. -/
theorem saveTranscript_format_and_cleanup (st : AggState) (fs : FS) :
    (saveTranscript st fs false).2 = st.transcript_file ∧
    (saveTranscript st fs false).1.1 = st ∧
    fsRead (saveTranscript st fs false).1.2 st.transcript_file
      = some (headerStr st ++ String.join (st.segments.map segLine)
              ++ footerStr st) ∧
    fsExists (saveTranscript st fs false).1.2 (sidecarPath st) = false := by
  refine ⟨rfl, rfl, ?_, ?_⟩
  · rw [saveTranscript_read_canonical st fs false]
    rw [renderTranscript, bodyStr_eq_join]
  · unfold saveTranscript
    dsimp only
    split
    · next hex =>
      rw [if_neg (by simp)]
      simp [fsExists, fsRemove]
    · next hex =>
      simpa [fsExists] using hex

/-- C3: whenever `add_segment` runs with non-blank text and at least the
fixed 30-second interval has passed since the last save, the aggregator
appends the segment, writes the snapshot of the whole transcript so far to
`<transcript>.partial`, and stamps the save instant. -/
theorem addSegment_writes_sidecar_after_interval (st : AggState) (fs : FS)
    (now : Int) (text : String) (words : Option (List String))
    (hne : pyStrip text ≠ "") (hfix : st.save_interval = 30)
    (hint : (30:Int) ≤ now - st.last_save_time) :
    ((addSegment st fs now text words).1).last_save_time = now ∧
    ((addSegment st fs now text words).1).segments
      = st.segments ++ [mkSegment st.start_time now text words] ∧
    fsRead (addSegment st fs now text words).2 (sidecarPath st)
      = some (renderTranscript (addSegment st fs now text words).1) := by
  have hs : st.save_interval ≤ now - st.last_save_time := by rw [hfix]; exact hint
  rw [addSegment_save_eq st fs now text words hne hs]
  exact ⟨rfl, rfl, fsRead_fsWrite_self fs _ _⟩

/-- Witness for `addSegment_writes_sidecar_after_interval`: a fresh
aggregator (interval 30) receiving `"hello"` 40 seconds after start. -/
theorem addSegment_writes_sidecar_after_interval_witness :
    pyStrip "hello" ≠ "" ∧
    (initAgg "rec" "sess" 0 "T").save_interval = 30 ∧
    (30:Int) ≤ 40 - (initAgg "rec" "sess" 0 "T").last_save_time ∧
    (((addSegment (initAgg "rec" "sess" 0 "T") fsEmpty 40 "hello" none).1).last_save_time = 40 ∧
     ((addSegment (initAgg "rec" "sess" 0 "T") fsEmpty 40 "hello" none).1).segments
       = (initAgg "rec" "sess" 0 "T").segments
         ++ [mkSegment (initAgg "rec" "sess" 0 "T").start_time 40 "hello" none] ∧
     fsRead (addSegment (initAgg "rec" "sess" 0 "T") fsEmpty 40 "hello" none).2
         (sidecarPath (initAgg "rec" "sess" 0 "T"))
       = some (renderTranscript
           (addSegment (initAgg "rec" "sess" 0 "T") fsEmpty 40 "hello" none).1)) :=
  ⟨by decide, by decide, by decide,
   addSegment_writes_sidecar_after_interval (initAgg "rec" "sess" 0 "T")
     fsEmpty 40 "hello" none (by decide) (by decide) (by decide)⟩

/-- C4 (amended): feeding a sequence of final recognition events whose texts
are non-blank (non-empty after stripping) to a fresh aggregator, at
non-decreasing instants, yields exactly one segment per event whose text is
the stripped event text, with non-decreasing `elapsed_seconds`, and
`get_full_transcript` returns the stripped texts joined by single spaces. -/
theorem addMany_segments_per_event (sf sn nowStr : String) (startT : Int)
    (fs : FS) (evs : List (Int × String))
    (hne : ∀ e ∈ evs, pyStrip e.2 ≠ "")
    (hmono : evs.Pairwise (fun a b => a.1 ≤ b.1)) :
    getSegmentCount (addMany (initAgg sf sn startT nowStr) fs evs).1
      = evs.length ∧
    ((addMany (initAgg sf sn startT nowStr) fs evs).1).segments.map
        (fun s => s.text)
      = evs.map (fun e => pyStrip e.2) ∧
    List.Pairwise (fun a b : Int => a ≤ b)
      (((addMany (initAgg sf sn startT nowStr) fs evs).1).segments.map
        (fun s => s.elapsed_seconds)) ∧
    getFullTranscript (addMany (initAgg sf sn startT nowStr) fs evs).1
      = String.intercalate " " (evs.map (fun e => pyStrip e.2)) := by
  have hsegs := addMany_all_segments evs (initAgg sf sn startT nowStr) fs hne
  have hstart : (initAgg sf sn startT nowStr).start_time = startT := rfl
  have hinit : (initAgg sf sn startT nowStr).segments = [] := rfl
  rw [hstart, hinit] at hsegs
  refine ⟨?_, ?_, ?_, ?_⟩
  · rw [getSegmentCount, hsegs]
    simp
  · rw [hsegs]
    simp [mkSegment]
  · rw [hsegs]
    simp only [List.nil_append, List.map_map]
    have : ((fun s : Segment => s.elapsed_seconds) ∘
        fun e : Int × String => mkSegment startT e.1 e.2 none)
        = fun e : Int × String => e.1 - startT := by
      funext e; rfl
    rw [this]
    exact List.Pairwise.map _ (fun a b hab => by omega) hmono
  · rw [getFullTranscript, hsegs]
    simp only [List.nil_append, List.map_map]
    congr 1

/-- Witness for `addMany_segments_per_event` at the spec's own example
`["hello world", "this is a test"]`. -/
theorem addMany_segments_per_event_witness :
    (∀ e ∈ [((0:Int), "hello world"), (1, "this is a test")], pyStrip e.2 ≠ "") ∧
    List.Pairwise (fun a b : Int × String => a.1 ≤ b.1)
      [((0:Int), "hello world"), (1, "this is a test")] ∧
    (getSegmentCount (addMany (initAgg "rec" "sess" 0 "T") fsEmpty
        [((0:Int), "hello world"), (1, "this is a test")]).1 = 2 ∧
     ((addMany (initAgg "rec" "sess" 0 "T") fsEmpty
        [((0:Int), "hello world"), (1, "this is a test")]).1).segments.map
          (fun s => s.text)
       = [((0:Int), "hello world"), (1, "this is a test")].map
           (fun e => pyStrip e.2) ∧
     List.Pairwise (fun a b : Int => a ≤ b)
       (((addMany (initAgg "rec" "sess" 0 "T") fsEmpty
          [((0:Int), "hello world"), (1, "this is a test")]).1).segments.map
         (fun s => s.elapsed_seconds)) ∧
     getFullTranscript (addMany (initAgg "rec" "sess" 0 "T") fsEmpty
        [((0:Int), "hello world"), (1, "this is a test")]).1
       = String.intercalate " "
           ([((0:Int), "hello world"), (1, "this is a test")].map
             (fun e => pyStrip e.2))) :=
  ⟨by decide, by decide,
   addMany_segments_per_event "rec" "sess" "T" 0 fsEmpty
     [((0:Int), "hello world"), (1, "this is a test")] (by decide) (by decide)⟩

/-- C4 (counterexample to the claim as stated): for the non-empty texts
`" "` and `"x "` the aggregator does not produce one segment per event with
the texts joined verbatim — the whitespace-only event is dropped entirely,
and the trailing space of `"x "` is stripped, so the full transcript is
`"x"`, not `"x "`. -/
theorem addMany_not_one_segment_per_nonempty_event :
    (" " : String) ≠ "" ∧
    getSegmentCount (addMany (initAgg "rec" "sess" 0 "T") fsEmpty
      [((0:Int), " ")]).1 = 0 ∧
    ("x " : String) ≠ "" ∧
    getSegmentCount (addMany (initAgg "rec" "sess" 0 "T") fsEmpty
      [((0:Int), "x ")]).1 = 1 ∧
    getFullTranscript (addMany (initAgg "rec" "sess" 0 "T") fsEmpty
      [((0:Int), "x ")]).1 = "x" := by
  refine ⟨by decide, by decide, by decide, by decide, by decide⟩

/-- String `a` is an initial run of string `b` (content-wise). -/
def FrontOf (a b : String) : Prop := a.data <+: b.data

instance (a b : String) : Decidable (FrontOf a b) :=
  inferInstanceAs (Decidable (a.data <+: b.data))

/-- After any further event sequence, the transcript file written by
`save_transcript` is readable back and starts with the header and
segment-body that the aggregator had at the earlier point; with no further
events it is exactly the earlier render. -/
lemma final_read_leads (stP : AggState) (fsP : FS) (evs : List (Int × String))
    (b : Bool) :
    ∃ fc : String,
      fsRead (saveTranscript (addMany stP fsP evs).1 (addMany stP fsP evs).2
          b).1.2 stP.transcript_file = some fc ∧
      FrontOf (headerStr stP ++ bodyStr stP.segments) fc ∧
      (evs = [] → fc = renderTranscript stP) := by
  obtain ⟨k1, k2, k3, k4, T, hT⟩ := addMany_keeps evs stP fsP
  refine ⟨renderTranscript (addMany stP fsP evs).1, ?_, ?_, ?_⟩
  · rw [show stP.transcript_file = ((addMany stP fsP evs).1).transcript_file
      from k4.symm]
    exact saveTranscript_read_canonical _ _ b
  · rw [FrontOf]
    have hfc : renderTranscript (addMany stP fsP evs).1
        = (headerStr stP ++ bodyStr stP.segments)
          ++ (bodyStr T ++ footerStr (addMany stP fsP evs).1) := by
      rw [renderTranscript, headerStr_congr _ _ k2 k3, hT, bodyStr_append]
      simp [String.append_assoc]
    rw [hfc, strData_append]
    exact List.prefix_append _ _
  · rintro rfl
    rfl

/-- C2 (amended): once a periodic save has written the sidecar, the header
and segment-body part of its content is an initial run of the eventual final
transcript content, whatever further segments arrive; the full sidecar
content (which ends in a footer) coincides with the final content exactly
when no further event arrives before `save_transcript`. -/
theorem sidecar_header_and_body_lead_final (st : AggState) (fs : FS)
    (now : Int) (text : String) (words : Option (List String))
    (evs : List (Int × String)) (removeRaises : Bool)
    (hne : pyStrip text ≠ "")
    (hsave : st.save_interval ≤ now - st.last_save_time) :
    ∃ pc fc : String,
      fsRead (addSegment st fs now text words).2 (sidecarPath st) = some pc ∧
      pc = renderTranscript (addSegment st fs now text words).1 ∧
      fsRead (saveTranscript
          (addMany (addSegment st fs now text words).1
            (addSegment st fs now text words).2 evs).1
          (addMany (addSegment st fs now text words).1
            (addSegment st fs now text words).2 evs).2 removeRaises).1.2
        st.transcript_file = some fc ∧
      FrontOf (headerStr (addSegment st fs now text words).1
        ++ bodyStr ((addSegment st fs now text words).1).segments) fc ∧
      (evs = [] → pc = fc) := by
  obtain ⟨fc, hfc1, hfc2, hfc3⟩ :=
    final_read_leads (addSegment st fs now text words).1
      (addSegment st fs now text words).2 evs removeRaises
  have ktf : ((addSegment st fs now text words).1).transcript_file
      = st.transcript_file :=
    (addSegment_keeps st fs now text words).2.2.2.1
  refine ⟨renderTranscript (addSegment st fs now text words).1, fc, ?_, rfl,
    ?_, hfc2, ?_⟩
  · rw [addSegment_save_eq st fs now text words hne hsave]
    exact fsRead_fsWrite_self fs _ _
  · rw [← ktf]
    exact hfc1
  · intro h
    exact (hfc3 h).symm

/-- Witness for `sidecar_header_and_body_lead_final`: a fresh aggregator,
`"hello"` at 40s (sidecar written), `"world"` at 50s, then the final save. -/
theorem sidecar_header_and_body_lead_final_witness :
    pyStrip "hello" ≠ "" ∧
    (initAgg "rec" "sess" 0 "T").save_interval
      ≤ 40 - (initAgg "rec" "sess" 0 "T").last_save_time ∧
    (∃ pc fc : String,
      fsRead (addSegment (initAgg "rec" "sess" 0 "T") fsEmpty 40 "hello"
          none).2 (sidecarPath (initAgg "rec" "sess" 0 "T")) = some pc ∧
      pc = renderTranscript (addSegment (initAgg "rec" "sess" 0 "T") fsEmpty
          40 "hello" none).1 ∧
      fsRead (saveTranscript
          (addMany (addSegment (initAgg "rec" "sess" 0 "T") fsEmpty 40
              "hello" none).1
            (addSegment (initAgg "rec" "sess" 0 "T") fsEmpty 40 "hello"
              none).2 [((50:Int), "world")]).1
          (addMany (addSegment (initAgg "rec" "sess" 0 "T") fsEmpty 40
              "hello" none).1
            (addSegment (initAgg "rec" "sess" 0 "T") fsEmpty 40 "hello"
              none).2 [((50:Int), "world")]).2 false).1.2
        (initAgg "rec" "sess" 0 "T").transcript_file = some fc ∧
      FrontOf (headerStr (addSegment (initAgg "rec" "sess" 0 "T") fsEmpty 40
          "hello" none).1
        ++ bodyStr ((addSegment (initAgg "rec" "sess" 0 "T") fsEmpty 40
          "hello" none).1).segments) fc ∧
      ([((50:Int), "world")] = ([] : List (Int × String)) → pc = fc)) :=
  ⟨by decide, by decide,
   sidecar_header_and_body_lead_final (initAgg "rec" "sess" 0 "T") fsEmpty
     40 "hello" none [((50:Int), "world")] false (by decide) (by decide)⟩

/-- First step of the refuting run for the claim that the sidecar content is
always an initial run of the final transcript: `"hello"` arrives 40s after
start, so the sidecar snapshot is written. -/
def refuteStep1 : AggState × FS :=
  addSegment (initAgg "rec" "sess" 0 "T") fsEmpty 40 "hello" none

/-- Second step: `"world"` arrives at 50s (no sidecar rewrite, 10s < 30s). -/
def refuteStep2 : AggState × FS :=
  addSegment refuteStep1.1 refuteStep1.2 50 "world" none

/-- Third step: the final `save_transcript`. -/
def refuteStep3 : (AggState × FS) × String :=
  saveTranscript refuteStep2.1 refuteStep2.2 false

/-- C2 (counterexample): in the run above the sidecar file exists after the
first event, the final transcript exists after `save_transcript`, and the
sidecar's content is NOT an initial run of the final content — the sidecar's
footer (`"\n===...`, segment count 1, duration) sits where the final file has
its second segment line. -/
theorem sidecar_content_not_leading_final :
    (fsRead refuteStep1.2 (sidecarPath (initAgg "rec" "sess" 0 "T"))).isSome
      = true ∧
    (fsRead refuteStep3.1.2
      (initAgg "rec" "sess" 0 "T").transcript_file).isSome = true ∧
    ¬ FrontOf
      ((fsRead refuteStep1.2 (sidecarPath (initAgg "rec" "sess" 0 "T"))).getD "")
      ((fsRead refuteStep3.1.2
        (initAgg "rec" "sess" 0 "T").transcript_file).getD "") := by
  refine ⟨by decide, by decide, by decide⟩

/-! Helper lemmas for the recorder trace semantics. -/

lemma framesOf_append (a b : List AudioBlock) :
    framesOf (a ++ b) = framesOf a + framesOf b := by
  simp [framesOf]

/-- One event step preserves the accounting invariant: the WAV content is the
dequeued blocks followed by the still-queued blocks, and the frame counter
matches the WAV content. -/
lemma stepRec_pres (st : RecState) (deq : List AudioBlock) (e : REvent)
    (h1 : st.wav_blocks = deq ++ st.audio_queue)
    (h2 : st.frames_recorded = framesOf st.wav_blocks) :
    (stepRec (st, deq) e).1.wav_blocks
      = (stepRec (st, deq) e).2 ++ (stepRec (st, deq) e).1.audio_queue ∧
    (stepRec (st, deq) e).1.frames_recorded
      = framesOf (stepRec (st, deq) e).1.wav_blocks := by
  obtain ⟨rec, aq, wav, fr, so, sa, wo, wf, al⟩ := st
  replace h1 : wav = deq ++ aq := h1
  replace h2 : fr = framesOf wav := h2
  cases e with
  | cb b =>
    cases rec with
    | false => exact ⟨h1, h2⟩
    | true =>
      refine ⟨?_, ?_⟩
      · show wav ++ [b] = deq ++ (aq ++ [b])
        rw [h1, List.append_assoc]
      · show fr + b.frameCount = framesOf (wav ++ [b])
        rw [h2, framesOf_append]
        simp [framesOf]
  | get =>
    cases aq with
    | nil =>
      refine ⟨?_, h2⟩
      show wav = (deq ++ []) ++ []
      simpa using h1
    | cons b rest =>
      refine ⟨?_, h2⟩
      show wav = (deq ++ [b]) ++ rest
      rw [h1, List.append_assoc]
      rfl
  | startEv => exact ⟨h1, h2⟩
  | stopEv =>
    cases so with
    | false => exact ⟨h1, h2⟩
    | true =>
      cases wo with
      | false => exact ⟨h1, h2⟩
      | true => exact ⟨h1, h2⟩

lemma runRec_inv_aux (tr : List REvent) :
    ∀ (st : RecState) (deq : List AudioBlock),
    st.wav_blocks = deq ++ st.audio_queue →
    st.frames_recorded = framesOf st.wav_blocks →
    (tr.foldl stepRec (st, deq)).1.wav_blocks
      = (tr.foldl stepRec (st, deq)).2
        ++ (tr.foldl stepRec (st, deq)).1.audio_queue ∧
    (tr.foldl stepRec (st, deq)).1.frames_recorded
      = framesOf (tr.foldl stepRec (st, deq)).1.wav_blocks := by
  induction tr with
  | nil => exact fun st deq h1 h2 => ⟨h1, h2⟩
  | cons e tr ih =>
    intro st deq h1 h2
    rw [List.foldl_cons]
    have hp := stepRec_pres st deq e h1 h2
    exact ih (stepRec (st, deq) e).1 (stepRec (st, deq) e).2 hp.1 hp.2

/-- C1 (amended): over any session trace, the frames written to the WAV file
are exactly the frames of the dequeued blocks plus the frames of the blocks
still sitting in the queue, and the WAV content is the dequeued blocks
followed, in FIFO order, by the still-queued ones — no block is dropped, but
the written total equals the dequeued total only once the queue is drained. -/
theorem frames_written_split_dequeued_queued (tr : List REvent) :
    (runRec tr).1.wav_blocks = (runRec tr).2 ++ (runRec tr).1.audio_queue ∧
    (runRec tr).1.frames_recorded
      = framesOf (runRec tr).2 + framesOf (runRec tr).1.audio_queue := by
  have h := runRec_inv_aux tr initRec [] rfl rfl
  unfold runRec
  exact ⟨h.1, by rw [h.2, h.1, framesOf_append]⟩

/-- A session in which one 160-frame block is delivered by the driver right
after the consumer's last empty poll, and the session then stops: the block
is written to the WAV file but never dequeued. -/
def lostTailTrace : List REvent :=
  [REvent.startEv, REvent.get, REvent.cb ⟨[0, 0], 160⟩, REvent.stopEv]

/-- C1 (counterexample): at the end of `lostTailTrace` the file holds 160
frames while the sum over all blocks ever dequeued is 0 — the claimed
equality fails whenever the session stops with a non-empty queue. -/
theorem frames_written_exceed_dequeued_after_stop :
    (runRec lostTailTrace).1.frames_recorded = 160 ∧
    framesOf (runRec lostTailTrace).2 = 0 ∧
    (runRec lostTailTrace).1.audio_queue ≠ [] := by
  refine ⟨by decide, by decide, by decide⟩

/-- Driver callbacks while recording append their blocks, in order, to both
the queue and the WAV file, and count their frames. -/
lemma foldl_cb_eq (bs : List AudioBlock) :
    ∀ (st : RecState) (deq : List AudioBlock), st.recording = true →
    (bs.map REvent.cb).foldl stepRec (st, deq)
      = ({ st with
            audio_queue := st.audio_queue ++ bs
            wav_blocks := st.wav_blocks ++ bs
            frames_recorded := st.frames_recorded + framesOf bs }, deq) := by
  induction bs with
  | nil =>
    intro st deq h
    obtain ⟨rec, aq, wav, fr, so, sa, wo, wf, al⟩ := st
    simp [framesOf]
  | cons b bs ih =>
    intro st deq h
    rw [List.map_cons, List.foldl_cons]
    have hcb : stepRec (st, deq) (REvent.cb b)
        = ({ st with
              audio_queue := st.audio_queue ++ [b]
              wav_blocks := st.wav_blocks ++ [b]
              frames_recorded := st.frames_recorded + b.frameCount }, deq) := by
      simp [stepRec, audioCallback, h]
    rw [hcb, ih { st with
          audio_queue := st.audio_queue ++ [b]
          wav_blocks := st.wav_blocks ++ [b]
          frames_recorded := st.frames_recorded + b.frameCount } deq h]
    obtain ⟨rec, aq, wav, fr, so, sa, wo, wf, al⟩ := st
    simp [List.append_assoc, framesOf, Nat.add_assoc]

/-- Popping as many times as the queue is long returns exactly the queued
blocks, in FIFO order, leaving the queue empty. -/
lemma foldl_get_eq (q : List AudioBlock) :
    ∀ (st : RecState) (deq : List AudioBlock), st.audio_queue = q →
    (List.replicate q.length REvent.get).foldl stepRec (st, deq)
      = ({ st with audio_queue := [] }, deq ++ q) := by
  induction q with
  | nil =>
    intro st deq h
    obtain ⟨rec, aq, wav, fr, so, sa, wo, wf, al⟩ := st
    replace h : aq = [] := h
    subst h
    simp
  | cons b rest ih =>
    intro st deq h
    obtain ⟨rec, aq, wav, fr, so, sa, wo, wf, al⟩ := st
    replace h : aq = b :: rest := h
    subst h
    rw [show (b :: rest).length = rest.length + 1 from rfl,
      List.replicate_succ, List.foldl_cons]
    rw [show stepRec (⟨rec, b :: rest, wav, fr, so, sa, wo, wf, al⟩, deq)
        REvent.get
        = (⟨rec, rest, wav, fr, so, sa, wo, wf, al⟩, deq ++ [b]) from rfl]
    rw [ih _ (deq ++ [b]) rfl]
    simp

/-- C8: if the driver delivers any sequence of blocks while recording, the
consumer's `get_audio_block` calls return exactly those blocks in FIFO
enqueue order, and once the queue is empty a further `get_audio_block`
returns `None` instead of blocking or raising. -/
theorem enqueue_then_drain_fifo (bs : List AudioBlock) :
    (runRec (REvent.startEv :: (bs.map REvent.cb
      ++ List.replicate bs.length REvent.get))).2 = bs ∧
    (runRec (REvent.startEv :: (bs.map REvent.cb
      ++ List.replicate bs.length REvent.get))).1.audio_queue = [] ∧
    (getAudioBlock (runRec (REvent.startEv :: (bs.map REvent.cb
      ++ List.replicate bs.length REvent.get))).1).2 = none := by
  have h1 := foldl_cb_eq bs (startRec initRec) [] rfl
  have h2 := foldl_get_eq bs
    { startRec initRec with
        audio_queue := (startRec initRec).audio_queue ++ bs
        wav_blocks := (startRec initRec).wav_blocks ++ bs
        frames_recorded := (startRec initRec).frames_recorded + framesOf bs }
    [] (by simp [startRec, initRec])
  unfold runRec
  rw [List.foldl_cons, List.foldl_append]
  rw [show stepRec (initRec, ([] : List AudioBlock)) REvent.startEv
      = (startRec initRec, []) from rfl]
  rw [h1, h2]
  refine ⟨by simp, rfl, rfl⟩

/-- C7: the second `stop()` in a row raises.  The first call finalizes the
WAV file exactly once and reports no error; the second call reaches
`self.stream.stop_stream()` with the stream already closed — `stop()` never
clears `self.stream` — which raises `OSError('Stream not open')`.  The WAV
finalization is still not duplicated (the `wave` writer's `close` is a no-op
the second time). -/
theorem stop_twice_second_raises :
    (stopRec (startRec initRec)).2 = none ∧
    ((stopRec (startRec initRec)).1).wavFinalized = 1 ∧
    ((stopRec (stopRec (startRec initRec)).1).2).isSome = true ∧
    ((stopRec (stopRec (startRec initRec)).1).1).wavFinalized = 1 := by
  refine ⟨by decide, by decide, by decide, by decide⟩

/-- C9: whenever the recognizer's result text for a block is empty or
whitespace-only, `process_audio` returns `None` — the result is suppressed
in both the boundary (final) and the in-progress branch, so no empty segment
can ever be produced from it. -/
theorem processAudio_blank_suppressed (eng : VoskEngine)
    (audio_data : List Nat) (resp : VoskResponse)
    (h : pyStrip (respText resp) = "") :
    (processAudio eng audio_data resp).2 = none := by
  cases resp with
  | boundary t ws =>
    have ht : pyStrip t = "" := h
    simp [processAudio, ht]
  | inProgress t =>
    have ht : pyStrip t = "" := h
    simp [processAudio, ht]

/-- Witness for `processAudio_blank_suppressed`: a whitespace-only final
result on a non-empty audio block. -/
theorem processAudio_blank_suppressed_witness :
    pyStrip (respText (VoskResponse.boundary "   " [])) = "" ∧
    (processAudio ⟨0, 0⟩ [1] (VoskResponse.boundary "   " [])).2 = none :=
  ⟨by decide, processAudio_blank_suppressed ⟨0, 0⟩ [1]
    (VoskResponse.boundary "   " []) (by decide)⟩
